import Mathlib

/-
  Shallow embedding of the routing core of the mycelium repository:
  src/routing_table.rs (RouteKey, RouteEntry, RoutingTable) and
  src/router.rs (Router, send_hello).

  External collaborator types (Subnet, Peer, Metric, SeqNo, SourceKey,
  ControlPacket) live outside src/ and are modelled from the spec, as
  marked on each definition. The routing table itself is a BTreeMap in
  the source; it is embedded as a strictly sorted association list
  ordered by the Ord instance of RouteKey, which is how a BTreeMap
  behaves observationally (insert replaces, iteration in ascending key
  order).
-/

namespace Mycelium

/-- Modelled from the spec: a Subnet is an IP prefix, an address plus a
length, with ordering by prefix bits then length. Addresses are the
numeric value of the IP address bits. -/
structure Subnet where
  addr : Nat
  plen : Nat
deriving DecidableEq, Repr

/-- Width in bits of the addresses used in the concrete examples (IPv4). -/
def ipWidth : Nat := 32

/-- Modelled from the spec: subnet/prefix containment logic, an external
collaborator of the routing core. An address is in the subnet when its
first `plen` bits agree with the prefix. -/
def Subnet.contains_ip (s : Subnet) (ip : Nat) : Bool :=
  ip / 2 ^ (ipWidth - s.plen) == s.addr / 2 ^ (ipWidth - s.plen)

/-- Modelled from the spec: a Peer is an external collaborator exposing
an overlay IP address used as its identity and ordering key; its other
state (session, sockets) is opaque to the routing core and is collapsed
into the `session` field. -/
structure Peer where
  overlay_ip : Nat
  session : Nat
deriving DecidableEq, Repr

/-- Modelled from the spec: RouterId is an immutable identity value. -/
abbrev RouterId := Nat

/-- Modelled from the spec: SourceKey = (Subnet, RouterId). -/
structure SourceKey where
  subnet : Subnet
  router_id : RouterId
deriving DecidableEq, Repr

/-- RouteKey from src/routing_table.rs: a subnet together with the
neighbour that advertised it. -/
structure RouteKey where
  subnet : Subnet
  neighbor : Peer
deriving DecidableEq, Repr

/-- RouteEntry from src/routing_table.rs. Metric and SeqNo are 16-bit
wrappers in the repository; no claim exercises their arithmetic so they
are carried as plain naturals. -/
structure RouteEntry where
  source : SourceKey
  neighbor : Peer
  metric : Nat
  seqno : Nat
  selected : Bool
deriving DecidableEq, Repr

/-- Rust Ord::cmp on natural numbers. -/
def cmpNat (a b : Nat) : Ordering :=
  if a < b then .lt else if b < a then .gt else .eq

/-- Modelled from the spec: Subnet ordering is by prefix bits then
length (the Ord instance of the external Subnet type). -/
def cmpSubnet (s1 s2 : Subnet) : Ordering :=
  match cmpNat s1.addr s2.addr with
  | .eq => cmpNat s1.plen s2.plen
  | o => o

/-- Ord for RouteKey, from src/routing_table.rs lines 25-32: compare the
subnets, and on equality compare the overlay IP addresses of the
neighbours. -/
def cmpRouteKey (k1 k2 : RouteKey) : Ordering :=
  match cmpSubnet k1.subnet k2.subnet with
  | .eq => cmpNat k1.neighbor.overlay_ip k2.neighbor.overlay_ip
  | o => o

/-- RouteEntry::set_selected from src/routing_table.rs lines 111-113. -/
def RouteEntry.set_selected (e : RouteEntry) (b : Bool) : RouteEntry :=
  { e with selected := b }

/-- The BTreeMap of the source, embedded as an association list kept
strictly sorted by cmpRouteKey. -/
abbrev RoutingTable := List (RouteKey × RouteEntry)

namespace RoutingTable

/-- RoutingTable::new from src/routing_table.rs. -/
def new : RoutingTable := []

/-- RoutingTable::get: the entry whose key compares equal, if any. -/
def get (k : RouteKey) : RoutingTable → Option RouteEntry
  | [] => none
  | (k1, e1) :: t => if cmpRouteKey k k1 = .eq then some e1 else get k t

/-- RoutingTable::insert: unconditional upsert keeping the key order. -/
def insert (k : RouteKey) (e : RouteEntry) : RoutingTable → RoutingTable
  | [] => [(k, e)]
  | (k1, e1) :: t =>
    match cmpRouteKey k k1 with
    | .lt => (k, e) :: (k1, e1) :: t
    | .eq => (k, e) :: t
    | .gt => (k1, e1) :: insert k e t

/-- RoutingTable::remove: deletes the entry for the key, returning it. -/
def remove (k : RouteKey) : RoutingTable → Option RouteEntry × RoutingTable
  | [] => (none, [])
  | (k1, e1) :: t =>
    if cmpRouteKey k k1 = .eq then (some e1, t)
    else
      let r := remove k t
      (r.1, (k1, e1) :: r.2)

/-- RoutingTable::contains_key. -/
def contains_key (k : RouteKey) (t : RoutingTable) : Bool :=
  (get k t).isSome

/-- RoutingTable::retain with a non-mutating predicate: keep exactly the
pairs satisfying it. -/
def retain (f : RouteKey → RouteEntry → Bool) (t : RoutingTable) : RoutingTable :=
  t.filter fun kv => f kv.1 kv.2

/-- RoutingTable::lookup from src/routing_table.rs lines 174-182: scan
the table in ascending key order and return a clone of the first entry
whose subnet contains the address. -/
def lookup (ip : Nat) : RoutingTable → Option RouteEntry
  | [] => none
  | (k1, e1) :: t => if k1.subnet.contains_ip ip then some e1 else lookup ip t

/-- Mutation through get_mut followed by RouteEntry::set_selected,
modelled as an in-place update of the entry whose key compares equal. -/
def set_selected_at (k : RouteKey) (b : Bool) (t : RoutingTable) : RoutingTable :=
  t.map fun kv => if cmpRouteKey kv.1 k = .eq then (kv.1, kv.2.set_selected b) else kv

/-- Well-formedness of the embedding: the keys are strictly ascending,
which every reachable BTreeMap satisfies. -/
def WF (t : RoutingTable) : Prop :=
  t.Pairwise fun a b => cmpRouteKey a.1 b.1 = .lt

instance (t : RoutingTable) : Decidable (WF t) := by
  unfold WF
  exact List.instDecidablePairwise t

/-- Number of entries of the table whose key compares equal to k. -/
def countKey (k : RouteKey) (t : RoutingTable) : Nat :=
  t.countP fun kv => decide (cmpRouteKey kv.1 k = .eq)

/-- Number of entries for subnet s that are selected. -/
def selectedCount (s : Subnet) (t : RoutingTable) : Nat :=
  t.countP fun kv => decide (kv.1.subnet = s) && kv.2.selected

end RoutingTable

/-! Characterisations of the comparison functions in terms of plain
natural-number arithmetic, from which all order reasoning follows. -/

theorem cmpNat_eq_lt {a b : Nat} : cmpNat a b = .lt ↔ a < b := by
  unfold cmpNat
  split
  · simp_all
  · split <;> simp_all <;> omega

theorem cmpNat_eq_eq {a b : Nat} : cmpNat a b = .eq ↔ a = b := by
  unfold cmpNat
  split
  · simp_all
    omega
  · split <;> simp_all <;> omega

theorem cmpNat_eq_gt {a b : Nat} : cmpNat a b = .gt ↔ b < a := by
  unfold cmpNat
  split
  · simp_all
    omega
  · split <;> simp_all <;> omega

theorem cmpSubnet_eq_lt {s1 s2 : Subnet} :
    cmpSubnet s1 s2 = .lt ↔
      (s1.addr < s2.addr ∨ (s1.addr = s2.addr ∧ s1.plen < s2.plen)) := by
  unfold cmpSubnet
  rcases h : cmpNat s1.addr s2.addr with _ | _ | _ <;>
    simp_all [cmpNat_eq_lt, cmpNat_eq_eq, cmpNat_eq_gt] <;> omega

theorem cmpSubnet_eq_eq {s1 s2 : Subnet} :
    cmpSubnet s1 s2 = .eq ↔ (s1.addr = s2.addr ∧ s1.plen = s2.plen) := by
  unfold cmpSubnet
  rcases h : cmpNat s1.addr s2.addr with _ | _ | _ <;>
    simp_all [cmpNat_eq_lt, cmpNat_eq_eq, cmpNat_eq_gt] <;> omega

theorem cmpSubnet_eq_gt {s1 s2 : Subnet} :
    cmpSubnet s1 s2 = .gt ↔
      (s2.addr < s1.addr ∨ (s1.addr = s2.addr ∧ s2.plen < s1.plen)) := by
  unfold cmpSubnet
  rcases h : cmpNat s1.addr s2.addr with _ | _ | _ <;>
    simp_all [cmpNat_eq_lt, cmpNat_eq_eq, cmpNat_eq_gt] <;> omega

theorem cmpSubnet_eq_iff_eq {s1 s2 : Subnet} :
    cmpSubnet s1 s2 = .eq ↔ s1 = s2 := by
  rw [cmpSubnet_eq_eq]
  constructor
  · rintro ⟨h1, h2⟩
    cases s1
    cases s2
    simp_all
  · rintro rfl
    exact ⟨rfl, rfl⟩

theorem cmpRouteKey_eq_lt {k1 k2 : RouteKey} :
    cmpRouteKey k1 k2 = .lt ↔
      (k1.subnet.addr < k2.subnet.addr ∨
       (k1.subnet.addr = k2.subnet.addr ∧ k1.subnet.plen < k2.subnet.plen) ∨
       (k1.subnet.addr = k2.subnet.addr ∧ k1.subnet.plen = k2.subnet.plen ∧
        k1.neighbor.overlay_ip < k2.neighbor.overlay_ip)) := by
  unfold cmpRouteKey
  rcases h : cmpSubnet k1.subnet k2.subnet with _ | _ | _ <;>
    simp_all [cmpSubnet_eq_lt, cmpSubnet_eq_eq, cmpSubnet_eq_gt,
      cmpNat_eq_lt] <;> omega

theorem cmpRouteKey_eq_eq {k1 k2 : RouteKey} :
    cmpRouteKey k1 k2 = .eq ↔
      (k1.subnet.addr = k2.subnet.addr ∧ k1.subnet.plen = k2.subnet.plen ∧
       k1.neighbor.overlay_ip = k2.neighbor.overlay_ip) := by
  unfold cmpRouteKey
  rcases h : cmpSubnet k1.subnet k2.subnet with _ | _ | _ <;>
    simp_all [cmpSubnet_eq_lt, cmpSubnet_eq_eq, cmpSubnet_eq_gt,
      cmpNat_eq_eq] <;> omega

theorem cmpRouteKey_eq_gt {k1 k2 : RouteKey} :
    cmpRouteKey k1 k2 = .gt ↔
      (k2.subnet.addr < k1.subnet.addr ∨
       (k1.subnet.addr = k2.subnet.addr ∧ k2.subnet.plen < k1.subnet.plen) ∨
       (k1.subnet.addr = k2.subnet.addr ∧ k1.subnet.plen = k2.subnet.plen ∧
        k2.neighbor.overlay_ip < k1.neighbor.overlay_ip)) := by
  unfold cmpRouteKey
  rcases h : cmpSubnet k1.subnet k2.subnet with _ | _ | _ <;>
    simp_all [cmpSubnet_eq_lt, cmpSubnet_eq_eq, cmpSubnet_eq_gt,
      cmpNat_eq_gt] <;> omega

theorem cmpRouteKey_eq_subnet_ip {k1 k2 : RouteKey} :
    cmpRouteKey k1 k2 = .eq ↔
      (k1.subnet = k2.subnet ∧ k1.neighbor.overlay_ip = k2.neighbor.overlay_ip) := by
  rw [cmpRouteKey_eq_eq]
  constructor
  · rintro ⟨h1, h2, h3⟩
    refine ⟨?_, h3⟩
    cases hs1 : k1.subnet
    cases hs2 : k2.subnet
    simp_all
  · rintro ⟨h1, h2⟩
    rw [h1, h2]
    exact ⟨rfl, rfl, rfl⟩

theorem cmpRouteKey_self {k : RouteKey} : cmpRouteKey k k = .eq := by
  rw [cmpRouteKey_eq_eq]
  exact ⟨rfl, rfl, rfl⟩

theorem cmpRouteKey_gt_iff_lt {k1 k2 : RouteKey} :
    cmpRouteKey k1 k2 = .gt ↔ cmpRouteKey k2 k1 = .lt := by
  rw [cmpRouteKey_eq_gt, cmpRouteKey_eq_lt]
  omega

theorem cmpRouteKey_lt_trans {k1 k2 k3 : RouteKey}
    (h1 : cmpRouteKey k1 k2 = .lt) (h2 : cmpRouteKey k2 k3 = .lt) :
    cmpRouteKey k1 k3 = .lt := by
  rw [cmpRouteKey_eq_lt] at h1 h2 ⊢
  omega

theorem cmpRouteKey_congr_left {k1 k2 : RouteKey}
    (h : cmpRouteKey k1 k2 = .eq) (k3 : RouteKey) :
    cmpRouteKey k1 k3 = cmpRouteKey k2 k3 := by
  rw [cmpRouteKey_eq_subnet_ip] at h
  unfold cmpRouteKey
  rw [h.1, h.2]

theorem cmpRouteKey_congr_right {k1 k2 : RouteKey}
    (h : cmpRouteKey k1 k2 = .eq) (k3 : RouteKey) :
    cmpRouteKey k3 k1 = cmpRouteKey k3 k2 := by
  rw [cmpRouteKey_eq_subnet_ip] at h
  unfold cmpRouteKey
  rw [h.1, h.2]

theorem cmpRouteKey_eq_symm {k1 k2 : RouteKey}
    (h : cmpRouteKey k1 k2 = .eq) : cmpRouteKey k2 k1 = .eq := by
  rw [cmpRouteKey_eq_eq] at h ⊢
  omega

/-! Lemmas about the table operations. -/

namespace RoutingTable

theorem get_eq_none_iff {k : RouteKey} {t : RoutingTable} :
    get k t = none ↔ ∀ kv ∈ t, cmpRouteKey k kv.1 ≠ .eq := by
  induction t with
  | nil => simp [get]
  | cons kv t ih =>
    obtain ⟨k1, e1⟩ := kv
    by_cases h : cmpRouteKey k k1 = .eq <;> simp_all [get]

theorem get_insert_self {k : RouteKey} {e : RouteEntry} {t : RoutingTable} :
    get k (insert k e t) = some e := by
  induction t with
  | nil => simp [insert, get, cmpRouteKey_self]
  | cons kv t ih =>
    obtain ⟨k1, e1⟩ := kv
    rcases h : cmpRouteKey k k1 with _ | _ | _ <;>
      simp_all [insert, get, cmpRouteKey_self]

theorem get_insert_of_ne {k k0 : RouteKey} {e : RouteEntry} {t : RoutingTable}
    (hne : cmpRouteKey k0 k ≠ .eq) :
    get k0 (insert k e t) = get k0 t := by
  induction t with
  | nil => simp [insert, get, hne]
  | cons kv t ih =>
    obtain ⟨k1, e1⟩ := kv
    rcases h : cmpRouteKey k k1 with _ | _ | _
    · simp [insert, h, get, hne]
    · have hc : cmpRouteKey k0 k1 = cmpRouteKey k0 k :=
        (cmpRouteKey_congr_right h k0).symm
      simp [insert, h, get, hne, hc]
    · simp [insert, h, get, ih]

theorem mem_insert {k : RouteKey} {e : RouteEntry} {t : RoutingTable}
    {kv : RouteKey × RouteEntry} (h : kv ∈ insert k e t) :
    kv = (k, e) ∨ kv ∈ t := by
  induction t with
  | nil => simp_all [insert]
  | cons kv1 t ih =>
    obtain ⟨k1, e1⟩ := kv1
    rcases h1 : cmpRouteKey k k1 with _ | _ | _ <;> simp_all [insert] <;> tauto

theorem WF_insert {k : RouteKey} {e : RouteEntry} {t : RoutingTable}
    (h : WF t) : WF (insert k e t) := by
  unfold WF at h ⊢
  induction t with
  | nil => simp [insert]
  | cons kv1 t ih =>
    obtain ⟨k1, e1⟩ := kv1
    rw [List.pairwise_cons] at h
    obtain ⟨hall, hwf⟩ := h
    rcases h1 : cmpRouteKey k k1 with _ | _ | _
    · simp only [insert, h1]
      rw [List.pairwise_cons]
      constructor
      · intro kv hmem
        rw [List.mem_cons] at hmem
        rcases hmem with rfl | hmem
        · exact h1
        · exact cmpRouteKey_lt_trans h1 (hall _ hmem)
      · rw [List.pairwise_cons]
        exact ⟨hall, hwf⟩
    · simp only [insert, h1]
      rw [List.pairwise_cons]
      refine ⟨?_, hwf⟩
      intro kv hmem
      show cmpRouteKey k kv.1 = .lt
      rw [cmpRouteKey_congr_left h1 kv.1]
      exact hall _ hmem
    · simp only [insert, h1]
      rw [List.pairwise_cons]
      constructor
      · intro kv hmem
        rcases mem_insert hmem with rfl | hmem
        · exact cmpRouteKey_gt_iff_lt.mp h1
        · exact hall _ hmem
      · exact ih hwf

theorem countKey_eq_zero {k : RouteKey} {t : RoutingTable}
    (h : ∀ kv ∈ t, cmpRouteKey kv.1 k ≠ .eq) : countKey k t = 0 := by
  rw [countKey, List.countP_eq_zero]
  intro kv hmem
  simpa using h kv hmem

theorem countKey_cons {k : RouteKey} {kv : RouteKey × RouteEntry}
    {t : RoutingTable} :
    countKey k (kv :: t) =
      countKey k t + (if cmpRouteKey kv.1 k = .eq then 1 else 0) := by
  rw [countKey, countKey, List.countP_cons]
  by_cases h : cmpRouteKey kv.1 k = .eq <;> simp [h]

theorem countKey_insert_self {k : RouteKey} {e : RouteEntry} {t : RoutingTable}
    (h : WF t) : countKey k (insert k e t) = 1 := by
  unfold WF at h
  induction t with
  | nil => simp [insert, countKey, cmpRouteKey_self]
  | cons kv1 t ih =>
    obtain ⟨k1, e1⟩ := kv1
    rw [List.pairwise_cons] at h
    obtain ⟨hall, hwf⟩ := h
    rcases h1 : cmpRouteKey k k1 with _ | _ | _
    · have hk1 : cmpRouteKey k1 k ≠ .eq := by
        intro hc
        have := cmpRouteKey_eq_symm hc
        simp_all
      have ht : countKey k t = 0 := by
        apply countKey_eq_zero
        intro kv hmem hc
        have hlt : cmpRouteKey k kv.1 = .lt :=
          cmpRouteKey_lt_trans h1 (hall _ hmem)
        have := cmpRouteKey_eq_symm hc
        simp_all
      simp only [insert, h1]
      rw [countKey_cons, countKey_cons, ht]
      simp [cmpRouteKey_self, hk1]
    · have ht : countKey k t = 0 := by
        apply countKey_eq_zero
        intro kv hmem hc
        have hlt : cmpRouteKey k kv.1 = .lt := by
          rw [cmpRouteKey_congr_left h1 kv.1]
          exact hall _ hmem
        have := cmpRouteKey_eq_symm hc
        simp_all
      simp only [insert, h1]
      rw [countKey_cons, ht]
      simp [cmpRouteKey_self]
    · have hk1 : cmpRouteKey k1 k ≠ .eq := by
        rw [cmpRouteKey_gt_iff_lt] at h1
        intro hc
        simp_all
      simp only [insert, h1]
      rw [countKey_cons]
      simp [hk1, ih hwf]

theorem get_congr {k1 k2 : RouteKey} (h : cmpRouteKey k1 k2 = .eq)
    (t : RoutingTable) : get k1 t = get k2 t := by
  induction t with
  | nil => rfl
  | cons kv t ih =>
    obtain ⟨k0, e0⟩ := kv
    have hc := cmpRouteKey_congr_left h k0
    rw [get, get, hc, ih]

theorem countKey_congr {k1 k2 : RouteKey} (h : cmpRouteKey k1 k2 = .eq)
    (t : RoutingTable) : countKey k1 t = countKey k2 t := by
  induction t with
  | nil => rfl
  | cons kv t ih =>
    rw [countKey_cons, countKey_cons, ih]
    have hc : cmpRouteKey kv.1 k1 = cmpRouteKey kv.1 k2 :=
      cmpRouteKey_congr_right h kv.1
    rw [hc]

theorem remove_fst {k : RouteKey} {t : RoutingTable} :
    (remove k t).1 = get k t := by
  induction t with
  | nil => rfl
  | cons kv t ih =>
    obtain ⟨k1, e1⟩ := kv
    by_cases h : cmpRouteKey k k1 = .eq <;> simp [remove, get, h, ih]

theorem remove_snd_sublist {k : RouteKey} {t : RoutingTable} :
    (remove k t).2.Sublist t := by
  induction t with
  | nil => simp [remove]
  | cons kv t ih =>
    obtain ⟨k1, e1⟩ := kv
    by_cases h : cmpRouteKey k k1 = .eq
    · simp only [remove, h, if_pos]
      exact List.sublist_cons_self _ _
    · simp only [remove, h, if_neg, not_false_iff]
      exact List.Sublist.cons₂ _ ih

theorem remove_of_get_none {k : RouteKey} {t : RoutingTable}
    (h : get k t = none) : remove k t = (none, t) := by
  induction t with
  | nil => rfl
  | cons kv t ih =>
    obtain ⟨k1, e1⟩ := kv
    by_cases hc : cmpRouteKey k k1 = .eq
    · simp [get, hc] at h
    · rw [get, if_neg hc] at h
      simp [remove, hc, ih h]

theorem get_remove_self {k : RouteKey} {t : RoutingTable} (h : WF t) :
    get k (remove k t).2 = none := by
  unfold WF at h
  induction t with
  | nil => simp [remove, get]
  | cons kv t ih =>
    obtain ⟨k1, e1⟩ := kv
    rw [List.pairwise_cons] at h
    obtain ⟨hall, hwf⟩ := h
    by_cases hc : cmpRouteKey k k1 = .eq
    · simp only [remove, hc, if_pos]
      rw [get_eq_none_iff]
      intro kv hmem
      rw [cmpRouteKey_congr_left hc kv.1]
      simp [hall kv hmem]
    · simp only [remove, hc, if_neg, not_false_iff]
      rw [get, if_neg hc]
      exact ih hwf

theorem get_remove_other {k k0 : RouteKey} {t : RoutingTable}
    (hne : cmpRouteKey k0 k ≠ .eq) :
    get k0 (remove k t).2 = get k0 t := by
  induction t with
  | nil => simp [remove]
  | cons kv t ih =>
    obtain ⟨k1, e1⟩ := kv
    by_cases hc : cmpRouteKey k k1 = .eq
    · have h01 : cmpRouteKey k0 k1 = cmpRouteKey k0 k :=
        (cmpRouteKey_congr_right hc k0).symm
      simp only [remove, hc, if_pos]
      rw [get, h01, if_neg hne]
    · by_cases h01 : cmpRouteKey k0 k1 = .eq <;>
        simp [remove, hc, get, h01, ih]

theorem selectedCount_cons {s : Subnet} {kv : RouteKey × RouteEntry}
    {t : RoutingTable} :
    selectedCount s (kv :: t) =
      selectedCount s t +
        (if kv.1.subnet = s ∧ kv.2.selected = true then 1 else 0) := by
  rw [selectedCount, selectedCount, List.countP_cons]
  by_cases h1 : kv.1.subnet = s <;> by_cases h2 : kv.2.selected <;>
    simp [h1, h2]

theorem selectedCount_insert_le {s : Subnet} {k : RouteKey} {e : RouteEntry}
    {t : RoutingTable} (hsel : e.selected = false) :
    selectedCount s (insert k e t) ≤ selectedCount s t := by
  induction t with
  | nil => simp [insert, selectedCount, List.countP_cons, hsel]
  | cons kv t ih =>
    obtain ⟨k1, e1⟩ := kv
    rcases h1 : cmpRouteKey k k1 with _ | _ | _
    · simp only [insert, h1]
      rw [selectedCount_cons, selectedCount_cons]
      simp [hsel]
    · simp only [insert, h1]
      rw [selectedCount_cons, selectedCount_cons]
      simp [hsel]
    · simp only [insert, h1]
      rw [selectedCount_cons, selectedCount_cons]
      omega

theorem selectedCount_remove_le {s : Subnet} {k : RouteKey}
    {t : RoutingTable} :
    selectedCount s (remove k t).2 ≤ selectedCount s t :=
  List.Sublist.countP_le _ remove_snd_sublist

theorem selectedCount_retain_le {s : Subnet}
    {f : RouteKey → RouteEntry → Bool} {t : RoutingTable} :
    selectedCount s (retain f t) ≤ selectedCount s t :=
  List.Sublist.countP_le _ (List.filter_sublist t)

theorem selectedCount_set_false_le {s : Subnet} {k : RouteKey}
    {t : RoutingTable} :
    selectedCount s (set_selected_at k false t) ≤ selectedCount s t := by
  induction t with
  | nil => simp [set_selected_at, selectedCount]
  | cons kv t ih =>
    obtain ⟨k1, e1⟩ := kv
    simp only [set_selected_at, List.map_cons] at ih ⊢
    by_cases hc : cmpRouteKey k1 k = .eq
    · rw [if_pos hc, selectedCount_cons, selectedCount_cons]
      have hw : (RouteEntry.set_selected e1 false).selected = false := rfl
      simp only [hw, Bool.false_eq_true, and_false, if_false]
      omega
    · rw [if_neg hc, selectedCount_cons, selectedCount_cons]
      omega

theorem lookup_eq_none {ip : Nat} {t : RoutingTable}
    (h : ∀ kv ∈ t, kv.1.subnet.contains_ip ip = false) :
    lookup ip t = none := by
  induction t with
  | nil => rfl
  | cons kv t ih =>
    obtain ⟨k1, e1⟩ := kv
    have h1 := h (k1, e1) (by simp)
    rw [lookup, h1]
    simp only [Bool.false_eq_true, if_false]
    exact ih fun kv hm => h kv (by simp [hm])

end RoutingTable

/-! Router, from src/router.rs. -/

/-- Modelled from the spec: the type tag of a control packet; the router
dispatches on it. Only Hello is exercised by src/router.rs; Update
stands for the route-update variants. -/
inductive ControlPacketType
  | Hello
  | Update
deriving DecidableEq, Repr

/-- Modelled from the spec and the construction in src/router.rs: a
control packet carries a type tag, a body length and an optional body
(a byte sequence). -/
structure ControlPacket where
  message_type : ControlPacketType
  body_length : Nat
  body : Option (List Nat)
deriving DecidableEq, Repr

/-- Router from src/router.rs lines 5-8. The Arc and Mutex around the
peer list are concurrency plumbing; the state is the list of directly
connected peers. -/
structure Router where
  directly_connected_peers : List Peer
deriving DecidableEq, Repr

/-- Router::new from src/router.rs. -/
def Router.new : Router := ⟨[]⟩

/-- Router::add_directly_connected_peer from src/router.rs. -/
def Router.add_directly_connected_peer (r : Router) (peer : Peer) : Router :=
  ⟨r.directly_connected_peers ++ [peer]⟩

/-- Router::send_hello from src/router.rs lines 21-31: build a Hello
control packet with zero body length and no body, and send a clone of
it to every directly connected peer. The peer outbound channels are
external; the sends are returned as (peer, packet) pairs in send order,
together with the unchanged router state. -/
def Router.send_hello (r : Router) : Router × List (Peer × ControlPacket) :=
  (r, r.directly_connected_peers.map fun peer =>
    (peer, { message_type := .Hello, body_length := 0, body := none }))

theorem countP_map_pair {l : List Peer} {pkt : ControlPacket} {p : Peer} :
    ((l.map fun q => (q, pkt)).countP fun pr => decide (pr.1 = p)) =
      l.countP fun q => decide (q = p) := by
  induction l with
  | nil => rfl
  | cons q l ih => simp [List.countP_cons, ih]

/-! Concrete values used by the counterexamples and witnesses. The two
subnets are the ones of the spec: 10.0.0.0/8 and 10.1.0.0/16 as 32-bit
numbers, and 10.1.2.3 and 10.2.2.3 as addresses. -/

def peerA : Peer := ⟨1, 100⟩

def peerB : Peer := ⟨2, 200⟩

/-- A peer with the same overlay IP as peerA but a different session. -/
def peerA2 : Peer := ⟨1, 300⟩

def subnet8 : Subnet := ⟨167772160, 8⟩

def subnet16 : Subnet := ⟨167837696, 16⟩

def ip_10_1_2_3 : Nat := 167838211

def ip_10_2_2_3 : Nat := 167903747

def key8 : RouteKey := ⟨subnet8, peerA⟩

def key16 : RouteKey := ⟨subnet16, peerB⟩

def entry8 : RouteEntry := ⟨⟨subnet8, 7⟩, peerA, 5, 1, true⟩

def entry16 : RouteEntry := ⟨⟨subnet16, 9⟩, peerB, 3, 1, true⟩

/-- An entry for 10.0.0.0/8 that is not selected. -/
def entry8u : RouteEntry := ⟨⟨subnet8, 7⟩, peerA, 5, 1, false⟩

/-- The overlap table of the spec: both subnets present and selected. -/
def overlapTable : RoutingTable :=
  RoutingTable.insert key16 entry16
    (RoutingTable.insert key8 entry8 RoutingTable.new)

/-- A second key for 10.0.0.0/8, advertised by peerB. -/
def keyB8 : RouteKey := ⟨subnet8, peerB⟩

/-- A selected entry for 10.0.0.0/8 advertised by peerB. -/
def entryB8 : RouteEntry := ⟨⟨subnet8, 7⟩, peerB, 6, 1, true⟩

/-- A key for 10.0.0.0/8 whose neighbour has the overlay IP of peerA but
a different session. -/
def keyA2_8 : RouteKey := ⟨subnet8, peerA2⟩

/-! The claims. -/

open RoutingTable in
/-- C1: the claim says lookup(ip) returns the longest-prefix match among
entries with selected = true and never returns unselected entries. The
code instead returns the first entry in key order whose subnet contains
the address: on the overlap table of the spec (10.0.0.0/8 and
10.1.0.0/16 both selected), lookup(10.1.2.3) returns the /8 entry even
though the /16 entry is selected, contains the address, and has the
longer prefix; and on a table holding only an unselected /8 entry,
lookup returns that unselected entry. -/
theorem claim_C1_code_divergence :
    lookup ip_10_1_2_3 overlapTable = some entry8 ∧
    entry16.selected = true ∧
    Subnet.contains_ip subnet16 ip_10_1_2_3 = true ∧
    subnet8.plen < subnet16.plen ∧
    entry8 ≠ entry16 ∧
    lookup ip_10_1_2_3 (insert key8 entry8u new) = some entry8u ∧
    entry8u.selected = false := by
  decide

open RoutingTable in
/-- C2 (counterexample): starting from the empty table, the operation
sequence insert(key8, entry8); insert(keyB8, entryB8) — two selected
entries for subnet 10.0.0.0/8 from different neighbours — leaves two
entries with selected = true for that subnet, so the count is not 0 or
1 after every operation sequence. -/
theorem claim_C2_counterexample :
    selectedCount subnet8
      (insert keyB8 entryB8 (insert key8 entry8 new)) = 2 := by
  decide

open RoutingTable in
/-- C2 (amended): the RoutingTable operations do not themselves enforce
selection exclusivity — inserting a second selected entry for a subnet
violates it — but the invariant is preserved by remove, retain, insert
of an entry with selected = false, and setting selected to false: if at
most one entry for s is selected before such an operation, at most one
is selected after it. -/
theorem claim_C2_amended (t : RoutingTable) (s : Subnet) (k : RouteKey)
    (e : RouteEntry) (f : RouteKey → RouteEntry → Bool)
    (hinv : selectedCount s t ≤ 1) (hsel : e.selected = false) :
    selectedCount s (insert k e t) ≤ 1 ∧
    selectedCount s (remove k t).2 ≤ 1 ∧
    selectedCount s (retain f t) ≤ 1 ∧
    selectedCount s (set_selected_at k false t) ≤ 1 :=
  ⟨le_trans (selectedCount_insert_le hsel) hinv,
   le_trans selectedCount_remove_le hinv,
   le_trans selectedCount_retain_le hinv,
   le_trans selectedCount_set_false_le hinv⟩

open RoutingTable in
/-- Witness for C2 (amended) at a concrete table with one selected
entry. -/
theorem claim_C2_witness :
    selectedCount subnet8
        (insert keyB8 entry8u (insert key8 entry8 new)) ≤ 1 ∧
    selectedCount subnet8 (remove keyB8 (insert key8 entry8 new)).2 ≤ 1 ∧
    selectedCount subnet8
        (retain (fun _ _ => true) (insert key8 entry8 new)) ≤ 1 ∧
    selectedCount subnet8
        (set_selected_at keyB8 false (insert key8 entry8 new)) ≤ 1 :=
  claim_C2_amended (insert key8 entry8 new) subnet8 keyB8 entry8u
    (fun _ _ => true) (by decide) (by decide)

open RoutingTable in
/-- C3: inserting e1 then e2 under the same key k leaves exactly one
entry whose key compares equal to k, and get(k) returns e2: last write
wins and no duplicate is created. -/
theorem claim_C3_insert_last_write_wins (t : RoutingTable) (k : RouteKey)
    (e1 e2 : RouteEntry) (hwf : WF t) :
    get k (insert k e2 (insert k e1 t)) = some e2 ∧
    countKey k (insert k e2 (insert k e1 t)) = 1 :=
  ⟨get_insert_self, countKey_insert_self (WF_insert hwf)⟩

open RoutingTable in
/-- Witness for C3 on the overlap table. -/
theorem claim_C3_witness :
    get key8 (insert key8 entry8u (insert key8 entry8 overlapTable)) =
        some entry8u ∧
    countKey key8 (insert key8 entry8u (insert key8 entry8 overlapTable)) = 1 :=
  claim_C3_insert_last_write_wins overlapTable key8 entry8 entry8u (by decide)

open RoutingTable in
/-- C4: remove(k) returns exactly the entry that get(k) returned before
the call (none when absent); afterwards get(k) is none, and get under
every key not comparing equal to k is unchanged. -/
theorem claim_C4_remove (t : RoutingTable) (k : RouteKey) (hwf : WF t) :
    (remove k t).1 = get k t ∧
    get k (remove k t).2 = none ∧
    ∀ k0, cmpRouteKey k0 k ≠ .eq → get k0 (remove k t).2 = get k0 t :=
  ⟨remove_fst, get_remove_self hwf, fun _ hne => get_remove_other hne⟩

open RoutingTable in
/-- Witness for C4 on the overlap table, removing the /8 entry. -/
theorem claim_C4_witness :
    (remove key8 overlapTable).1 = get key8 overlapTable ∧
    get key8 (remove key8 overlapTable).2 = none ∧
    get key16 (remove key8 overlapTable).2 = get key16 overlapTable :=
  ⟨(claim_C4_remove overlapTable key8 (by decide)).1,
   (claim_C4_remove overlapTable key8 (by decide)).2.1,
   (claim_C4_remove overlapTable key8 (by decide)).2.2 key16 (by decide)⟩

open RoutingTable in
/-- C5: the operations are total functions of the table state; a
missing entry yields none (false for contains_key, with contains_key
and get agreeing), remove of a missing key is a no-op returning none,
and lookup with no containing subnet yields none. -/
theorem claim_C5_total (t : RoutingTable) (k : RouteKey) (ip : Nat) :
    (get k t = none → contains_key k t = false ∧ remove k t = (none, t)) ∧
    (contains_key k t = false → get k t = none) ∧
    ((∀ kv ∈ t, kv.1.subnet.contains_ip ip = false) → lookup ip t = none) := by
  refine ⟨fun h => ⟨?_, remove_of_get_none h⟩, fun h => ?_,
    fun h => lookup_eq_none h⟩
  · rw [contains_key, h]
    rfl
  · rw [contains_key] at h
    cases hg : get k t with
    | none => rfl
    | some e =>
      rw [hg] at h
      simp at h

open RoutingTable in
/-- Witness for C5 on the overlap table with an absent key and an
address outside both subnets. -/
theorem claim_C5_witness :
    (contains_key keyB8 overlapTable = false ∧
      remove keyB8 overlapTable = (none, overlapTable)) ∧
    lookup 0 overlapTable = none :=
  ⟨(claim_C5_total overlapTable keyB8 0).1 (by decide),
   (claim_C5_total overlapTable keyB8 0).2.2 (by decide)⟩

/-- C6: the order on RouteKey is the comparison of the subnets when
these differ, and the comparison of the neighbours overlay IP addresses
when the subnets compare equal; so it is the lexicographic order on
(subnet, neighbour overlay address). -/
theorem claim_C6_key_order (k1 k2 : RouteKey) :
    (cmpSubnet k1.subnet k2.subnet ≠ .eq →
      cmpRouteKey k1 k2 = cmpSubnet k1.subnet k2.subnet) ∧
    (cmpSubnet k1.subnet k2.subnet = .eq →
      cmpRouteKey k1 k2 = cmpNat k1.neighbor.overlay_ip k2.neighbor.overlay_ip) ∧
    (cmpRouteKey k1 k2 = .lt ↔
      (cmpSubnet k1.subnet k2.subnet = .lt ∨
       (k1.subnet = k2.subnet ∧
        k1.neighbor.overlay_ip < k2.neighbor.overlay_ip))) := by
  refine ⟨fun h => ?_, fun h => ?_, ?_⟩
  · unfold cmpRouteKey
    rcases hc : cmpSubnet k1.subnet k2.subnet with _ | _ | _ <;> simp_all
  · unfold cmpRouteKey
    rw [h]
  · rw [cmpRouteKey_eq_lt, cmpSubnet_eq_lt, ← cmpSubnet_eq_iff_eq,
      cmpSubnet_eq_eq]
    omega

/-- Witness for C6: keys with different subnets compare by subnet; keys
with equal subnets compare by neighbour overlay address. -/
theorem claim_C6_witness :
    cmpRouteKey key8 key16 = cmpSubnet key8.subnet key16.subnet ∧
    cmpRouteKey key8 keyB8 =
      cmpNat key8.neighbor.overlay_ip keyB8.neighbor.overlay_ip :=
  ⟨(claim_C6_key_order key8 key16).1 (by decide),
   (claim_C6_key_order key8 keyB8).2.1 (by decide)⟩

/-- C7: send_hello leaves the router state unchanged and pushes exactly
one control packet, of type Hello with body length 0 and no body, onto
the outbound channel of each directly connected peer (one send per
occurrence of the peer in the list). -/
theorem claim_C7_send_hello (r : Router) (p : Peer) :
    (Router.send_hello r).1 = r ∧
    (Router.send_hello r).2 =
      r.directly_connected_peers.map
        (fun peer => (peer, ⟨ControlPacketType.Hello, 0, none⟩)) ∧
    ((Router.send_hello r).2.countP fun pr => decide (pr.1 = p)) =
      r.directly_connected_peers.countP fun q => decide (q = p) :=
  ⟨rfl, rfl, countP_map_pair⟩

open RoutingTable in
/-- C8: retain keeps exactly the pairs of the table that satisfy the
predicate, as a sublist of the original table: nothing is added and
every pair on which the predicate is false is removed. -/
theorem claim_C8_retain (f : RouteKey → RouteEntry → Bool) (t : RoutingTable) :
    (retain f t).Sublist t ∧
    ∀ kv : RouteKey × RouteEntry,
      kv ∈ retain f t ↔ (kv ∈ t ∧ f kv.1 kv.2 = true) := by
  refine ⟨List.filter_sublist t, fun kv => ?_⟩
  simp [retain, List.mem_filter]

open RoutingTable in
/-- C9: two RouteKeys with the same subnet whose neighbours have equal
overlay IP addresses compare as equal even when the Peer values differ
elsewhere, and an insert under one replaces the entry stored under the
other, leaving a single entry. -/
theorem claim_C9_key_identity (k1 k2 : RouteKey) (t : RoutingTable)
    (e1 e2 : RouteEntry) (hs : k1.subnet = k2.subnet)
    (hip : k1.neighbor.overlay_ip = k2.neighbor.overlay_ip)
    (hwf : WF t) :
    cmpRouteKey k1 k2 = .eq ∧
    get k1 (insert k2 e2 (insert k1 e1 t)) = some e2 ∧
    countKey k1 (insert k2 e2 (insert k1 e1 t)) = 1 := by
  have heq : cmpRouteKey k1 k2 = .eq := cmpRouteKey_eq_subnet_ip.mpr ⟨hs, hip⟩
  refine ⟨heq, ?_, ?_⟩
  · rw [get_congr heq]
    exact get_insert_self
  · rw [countKey_congr heq]
    exact countKey_insert_self (WF_insert hwf)

open RoutingTable in
/-- Witness for C9: peerA and peerA2 share the overlay IP 1 but differ
in their session field. -/
theorem claim_C9_witness :
    cmpRouteKey key8 keyA2_8 = .eq ∧
    get key8 (insert keyA2_8 entry8u (insert key8 entry8 new)) = some entry8u ∧
    countKey key8 (insert keyA2_8 entry8u (insert key8 entry8 new)) = 1 :=
  claim_C9_key_identity key8 keyA2_8 new entry8 entry8u (by decide) (by decide)
    (by decide)

open RoutingTable in
/-- C10: removing a key with no entry returns none and leaves the table
exactly as it was. -/
theorem claim_C10_remove_missing (t : RoutingTable) (k : RouteKey)
    (h : get k t = none) :
    (remove k t).1 = none ∧ (remove k t).2 = t := by
  have hr := remove_of_get_none h
  exact ⟨by rw [hr], by rw [hr]⟩

open RoutingTable in
/-- Witness for C10: keyB8 is absent from the overlap table. -/
theorem claim_C10_witness :
    (remove keyB8 overlapTable).1 = none ∧
    (remove keyB8 overlapTable).2 = overlapTable :=
  claim_C10_remove_missing overlapTable keyB8 (by decide)

end Mycelium
